import Mathlib

/-!
Verification of the lint/format/fix build-graph compiler (`scripts/lint/lint.py`)
and its helper checkers (`scripts/lint/whitespace.py`, `scripts/lint/xref.py`).

Representation choices, justified against the source:
* A `NinjaScript` (a Python `str`) is modelled as its list of lines (`Script`).
  Every append the source performs (`build`, `rules`, the preambles in `go`)
  appends whole lines: each appended piece ends with a newline, so the line
  structure of the concatenation is the concatenation of the line structures,
  and the full text is recovered exactly by `render` (each line followed by a
  newline).  `str.splitlines` on such text is exactly the line list (no line
  contains a carriage return or other line separator).
* `textwrap.dedent` applied to the source's fixed literals is evaluated by
  hand: the common four-space margin is removed, whitespace-only lines become
  empty, and the result is written down as an explicit line list.
* Python string methods are reimplemented over `String.data` (`List Char`):
  `startswith`, `endswith`, `in` (substring), no-argument `split` (the lines at
  hand contain no tab characters, so splitting on runs of spaces coincides with
  splitting on runs of whitespace), `rstrip`, `splitlines`, and
  `str.replace("/", "-")` (a single-character replace is a character map).
* `git ls-files` results, the script's own directory (`root`), and the `CI`
  environment indicator are inputs of the model (`RepoState`); file contents
  read by the `py` category are paired with the path.
* Assertions and uncaught exceptions are modelled with `Except`: `PyErr` for
  the graph compiler.  `os.execvp` never returns, so at most one external
  executor invocation happens per run; `goExecInvocations` records the list of
  invocations the process performs.
-/

set_option maxRecDepth 8000

deriving instance DecidableEq for Except

namespace LintSpec

/-! ### Python string primitives -/

/-- Python `s.startswith(pre)`. -/
def pyStartswith (s pre : String) : Bool := pre.data.isPrefixOf s.data

/-- Python `s.endswith(suf)`. -/
def pyEndswith (s suf : String) : Bool := suf.data.isSuffixOf s.data

/-- Substring occurrence on character lists (Python `pat in s`). -/
def subOf (pat : List Char) : List Char → Bool
  | [] => pat.isEmpty
  | c :: cs => pat.isPrefixOf (c :: cs) || subOf pat cs

/-- Python `sub in s`. -/
def pyContains (s sub : String) : Bool := subOf sub.data s.data

/-- Helper for Python `s.split()`: accumulate the current token (reversed). -/
def wsSplitAux : List Char → List Char → List (List Char)
  | [], acc => if acc = [] then [] else [acc.reverse]
  | c :: cs, acc =>
    if c = ' ' then
      if acc = [] then wsSplitAux cs [] else acc.reverse :: wsSplitAux cs []
    else wsSplitAux cs (c :: acc)

/-- Python `s.split()` (no argument: split on runs of whitespace; the strings
this is applied to contain spaces as their only whitespace). -/
def wsSplit (l : List Char) : List (List Char) := wsSplitAux l []

/-- Python `s.replace("/", "-")`: single-character replace is a character map. -/
def pyReplaceSlash (s : String) : String :=
  String.mk (s.data.map fun c => if c = '/' then '-' else c)

/-- `str(pathlib.Path(p).parent)` for the clean relative paths produced by
`git ls-files`. -/
def pyParent (p : String) : String :=
  let parts := (p.splitOn "/").dropLast
  if parts = [] then "." else String.intercalate "/" parts

/-- Python `" ".join(l)`. -/
def sjoin (l : List String) : String := String.intercalate " " l

/-! ### lint.py: the build-graph accumulator -/

/-- A Ninja configuration, as its list of lines (see the header comment). -/
abbrev Script := List String

/-- The final text of a script: every line followed by a newline. -/
def render (g : Script) : String := String.join (g.map (· ++ "\n"))

/-- The `skip` parameter threaded through every function of `lint.py`:
`None` or a set of rule names (only membership is ever consulted). -/
abbrev SkipSet := Option (List String)

/-- `skip is not None and rule in skip`. -/
def skipMem (skip : SkipSet) (rule : String) : Bool :=
  match skip with
  | none => false
  | some l => decide (rule ∈ l)

/-- Failures of `lint.py`: the `assert " " not in out` in `build`, the
`assert ok` in `ok` (carrying the offending rule name), and the `IndexError`
that `line.split()[1]` would raise on a one-token `rule` line. -/
inductive PyErr
  | assertSpace (out : String)
  | unrefRule (rule : String)
  | indexError
deriving DecidableEq

/-- The three accumulated graphs (`NinjaScripts` dataclass). -/
structure NinjaScripts where
  lint : Script
  fix : Script
  format : Script
deriving DecidableEq

/-- The edge line emitted by `build`:
`f"build $builddir/{out}: {rule} {ins}"`. -/
def buildLine (out rule ins : String) : String :=
  "build $builddir/" ++ out ++ ": " ++ rule ++ " " ++ ins

/-- `lint.py` `build`: skip check, whitespace assertion, append one edge. -/
def build (ninja : Script) (out rule ins : String) (skip : SkipSet) :
    Except PyErr Script :=
  if skipMem skip rule then .ok ninja
  else if ' ' ∈ out.data then .error (.assertSpace out)
  else .ok (ninja ++ [buildLine out rule ins])

/-- `lint.py` `rules`: append a dedented rule-definition block. -/
def rulesApp (ninja : Script) (ruleDef : Script) : Script := ninja ++ ruleDef

/-- The per-file output slug of `lint.py` `lint`:
`ins.replace("/", "-") + "." + rule`. -/
def slugOf (ins rule : String) : String := pyReplaceSlash ins ++ "." ++ rule

/-- `lint.py` `lint`: skip check, then `build` with the slug as output (the
inner `build` call passes no skip set). -/
def lint (ninja : Script) (rule ins : String) (skip : SkipSet) :
    Except PyErr Script :=
  if skipMem skip rule then .ok ninja
  else build ninja (slugOf ins rule) rule ins none

/-- `txt_lint`. -/
def txtLint (ninja : Script) (path : String) (skip : SkipSet) :
    Except PyErr Script :=
  lint ninja "ttlint" path skip

/-- `txt_format`. -/
def txtFormat (ninja : Script) (path : String) (skip : SkipSet) :
    Except PyErr Script :=
  lint ninja "ttlint-fix" path skip

/-! ### The dedented rule-definition blocks, one per category -/

def bashLintRules : Script :=
  ["", "rule bash-n", "  command = bash -n -- $in && touch $out",
   "  description = bash -n",
   "", "rule bash-sc", "  command = shellcheck --shell=bash -- $in && touch $out",
   "  description = shellcheck"]

def ghaLintRules : Script :=
  ["", "rule zizmor", "  command = zizmor --quiet -- $in && touch $out",
   "  description = zizmor"]

def ghaFixRules : Script :=
  ["", "rule zizmor-fix", "  command = zizmor --fix=safe -- $in && touch $out",
   "  description = zizmor --fix=safe"]

def jsonLintRules : Script :=
  ["", "rule jq", "  command = jq null -- $in > /dev/null && touch $out",
   "  description = jq"]

def makeLintRules : Script :=
  ["", "rule make-n", "  command = make -n -f $$in && touch $out",
   "  description = make -n"]

def mdLintRules : Script :=
  ["", "rule mdlynx", "  command = mdlynx $in && touch $out",
   "  description = mdlynx",
   "", "rule typos", "  command = typos $in && touch $out",
   "  description = typos"]

def mdFixRules : Script :=
  ["", "rule typos-fix", "  command = typos --write-changes -- $in && touch $out",
   "  description = typos --write-changes"]

def pyLintRules : Script :=
  ["", "rule ty", "  command = ty check -- $in && touch $out",
   "  description = ty",
   "", "rule py", "  command = ./scripts/lint/py.py -- $in && touch $out",
   "  description = python style",
   "", "rule ruff-check", "  command = ruff check --quiet -- $in && touch $out",
   "  description = ruff check",
   "", "rule ruff-fmt-check",
   "  command = ruff format --check --quiet -- $in && touch $out",
   "  description = ruff format --check"]

def pyFixRules : Script :=
  ["", "rule ruff-check-fix", "  command = ruff check --fix -- $in && touch $out",
   "  description = ruff check --fix"]

def pyFormatRules : Script :=
  ["", "rule ruff-fmt", "  command = ruff format --quiet -- $in && touch $out",
   "  description = ruff format"]

/-- `rs` lint rules; `cd` and `root` are interpolated into the command lines. -/
def rsLintRules (cd root : String) : Script :=
  ["", "rule clippy",
   "  command = " ++ (cd ++ ("cargo clippy --all-targets --quiet -- --deny warnings && touch " ++ (root ++ "/$out"))),
   "  description = cargo clippy",
   "", "rule rustfmt-check",
   "  command = " ++ (cd ++ ("cargo fmt --check && touch " ++ (root ++ "/$out"))),
   "  description = cargo fmt --check"]

def rsFixRules (cd root : String) : Script :=
  ["", "rule clippy-fix",
   "  command = " ++ (cd ++ ("cargo clippy  --all-targets --allow-dirty --fix --quiet -- --deny warnings && touch " ++ (root ++ "/$out"))),
   "  description = cargo clippy --fix"]

def rsFormatRules (cd root : String) : Script :=
  ["", "rule rustfmt",
   "  command = " ++ (cd ++ ("cargo fmt && touch " ++ (root ++ "/$out"))),
   "  description = cargo fmt"]

def shLintRules : Script :=
  ["", "rule sc", "  command = shellcheck --shell=bash -- $in && touch $out",
   "  description = shellcheck"]

def tomlLintRules : Script :=
  ["", "rule taplo-format-check",
   "  command = taplo format --check --diff -- $in && touch $out",
   "  description = taplo format --check"]

def tomlFormatRules : Script :=
  ["", "rule taplo-format", "  command = taplo format -- $in && touch $out",
   "  description = taplo format"]

def zshLintRules : Script :=
  ["", "rule zsh-n", "  command = zsh -n -- $in && touch $out",
   "  description = zsh -n",
   "", "rule zsh-sc", "  command = shellcheck --shell=bash -- $in && touch $out",
   "  description = shellcheck"]

def xrefLintRules : Script :=
  ["", "rule xref", "  command = ./scripts/lint/xref.py -- $in && touch $out",
   "  description = xref"]

/-! ### The category modules -/

/-- `bash(scripts, skip)`. -/
def bashCat (files : List String) (skip : SkipSet) (scripts : NinjaScripts) :
    Except PyErr NinjaScripts :=
  if files = [] then .ok scripts
  else
    let s0 : NinjaScripts := { scripts with lint := rulesApp scripts.lint bashLintRules }
    List.foldlM (fun s path => do
      let l ← lint s.lint "bash-n" path skip
      let l ← lint l "bash-sc" path skip
      let l ← txtLint l path skip
      let fm ← txtFormat s.format path skip
      pure { s with lint := l, format := fm }) s0 files

/-- `gha(scripts, skip)` (with the dependabot workaround `continue`). -/
def ghaCat (files : List String) (skip : SkipSet) (scripts : NinjaScripts) :
    Except PyErr NinjaScripts :=
  if files = [] then .ok scripts
  else
    let s0 : NinjaScripts := { scripts with lint := rulesApp scripts.lint ghaLintRules }
    let s1 : NinjaScripts := { s0 with fix := rulesApp s0.fix ghaFixRules }
    List.foldlM (fun s path =>
      if pyEndswith path "workflows/dependabot.yml" then pure s
      else do
        let l ← lint s.lint "zizmor" path skip
        let fx ← lint s.fix "zizmor-fix" path skip
        let l ← txtLint l path skip
        let fm ← txtFormat s.format path skip
        pure { lint := l, fix := fx, format := fm }) s1 files

/-- `json(scripts, skip)`. -/
def jsonCat (files : List String) (skip : SkipSet) (scripts : NinjaScripts) :
    Except PyErr NinjaScripts :=
  if files = [] then .ok scripts
  else
    let s0 : NinjaScripts := { scripts with lint := rulesApp scripts.lint jsonLintRules }
    List.foldlM (fun s path => do
      let l ← lint s.lint "jq" path skip
      let l ← txtLint l path skip
      let fm ← txtFormat s.format path skip
      pure { s with lint := l, format := fm }) s0 files

/-- `make(scripts, skip)`. -/
def makeCat (files : List String) (skip : SkipSet) (scripts : NinjaScripts) :
    Except PyErr NinjaScripts :=
  if files = [] then .ok scripts
  else
    let s0 : NinjaScripts := { scripts with lint := rulesApp scripts.lint makeLintRules }
    List.foldlM (fun s path => do
      let l ← lint s.lint "make-n" path skip
      let l ← txtLint l path skip
      let fm ← txtFormat s.format path skip
      pure { s with lint := l, format := fm }) s0 files

/-- `md(scripts, skip)`. -/
def mdCat (files : List String) (skip : SkipSet) (scripts : NinjaScripts) :
    Except PyErr NinjaScripts :=
  if files = [] then .ok scripts
  else
    let s0 : NinjaScripts := { scripts with lint := rulesApp scripts.lint mdLintRules }
    let s1 : NinjaScripts := { s0 with fix := rulesApp s0.fix mdFixRules }
    List.foldlM (fun s path => do
      let l ← lint s.lint "mdlynx" path skip
      let l ← lint l "typos" path skip
      let fx ← lint s.fix "typos-fix" path skip
      let l ← txtLint l path skip
      let fm ← txtFormat s.format path skip
      pure { lint := l, fix := fx, format := fm }) s1 files

/-- `nix(scripts, skip)`: no rule declarations of its own. -/
def nixCat (files : List String) (skip : SkipSet) (scripts : NinjaScripts) :
    Except PyErr NinjaScripts :=
  if files = [] then .ok scripts
  else
    List.foldlM (fun s path => do
      let l ← txtLint s.lint path skip
      let fm ← txtFormat s.format path skip
      pure { s with lint := l, format := fm }) scripts files

/-- `py(scripts, skip)`, body after the empty-list early return: declarations,
then the per-file loop with the `# noqa` opt-out.  Files are paired with their
contents (`Path(path).read_text()`). -/
def pyBody (files : List (String × String)) (skip : SkipSet) (scripts : NinjaScripts) :
    Except PyErr NinjaScripts :=
  let s0 : NinjaScripts := { scripts with lint := rulesApp scripts.lint pyLintRules }
  let s1 : NinjaScripts := { s0 with fix := rulesApp s0.fix pyFixRules }
  let s2 : NinjaScripts := { s1 with format := rulesApp s1.format pyFormatRules }
  List.foldlM (fun s pc =>
    if pyStartswith pc.2 "# noqa" then pure s
    else do
      let l ← lint s.lint "ty" pc.1 skip
      let l ← lint l "ruff-check" pc.1 skip
      let l ← lint l "ruff-fmt-check" pc.1 skip
      let l ← lint l "py" pc.1 skip
      let fx ← lint s.fix "ruff-check-fix" pc.1 skip
      let l ← txtLint l pc.1 skip
      let fm ← lint s.format "ruff-fmt" pc.1 skip
      let fm ← txtFormat fm pc.1 skip
      pure { lint := l, fix := fx, format := fm }) s2 files

/-- `py(scripts, skip)`. -/
def pyCat (files : List (String × String)) (skip : SkipSet) (scripts : NinjaScripts) :
    Except PyErr NinjaScripts :=
  if files = [] then .ok scripts else pyBody files skip scripts

/-- `rs(scripts, skip)`: whole-project edges plus per-file hygiene edges. -/
def rsCat (cargo rs : List String) (root : String) (skip : SkipSet)
    (scripts : NinjaScripts) : Except PyErr NinjaScripts :=
  if rs = [] then .ok scripts
  else
    let cd := if cargo.length = 1 then "cd " ++ pyParent (cargo.headD "") ++ "; " else ""
    let s0 : NinjaScripts := { scripts with lint := rulesApp scripts.lint (rsLintRules cd root) }
    let s1 : NinjaScripts := { s0 with fix := rulesApp s0.fix (rsFixRules cd root) }
    let s2 : NinjaScripts := { s1 with format := rulesApp s1.format (rsFormatRules cd root) }
    do
    let l ← build s2.lint "clippy" "clippy" (sjoin (cargo ++ rs)) skip
    let l ← build l "rustfmt-check" "rustfmt-check" (sjoin rs) skip
    let fm ← build s2.format "rustfmt" "rustfmt" (sjoin rs) skip
    let fx ← build s2.fix "clippy-fix" "clippy-fix" (sjoin (cargo ++ rs)) skip
    List.foldlM (fun s path => do
      let l ← txtLint s.lint path skip
      let fm ← txtFormat s.format path skip
      pure { s with lint := l, format := fm })
      ({ lint := l, fix := fx, format := fm } : NinjaScripts) rs

/-- `sh(scripts, skip)`. -/
def shCat (files : List String) (skip : SkipSet) (scripts : NinjaScripts) :
    Except PyErr NinjaScripts :=
  if files = [] then .ok scripts
  else
    let s0 : NinjaScripts := { scripts with lint := rulesApp scripts.lint shLintRules }
    List.foldlM (fun s path => do
      let l ← lint s.lint "sc" path skip
      let l ← txtLint l path skip
      let fm ← txtFormat s.format path skip
      pure { s with lint := l, format := fm }) s0 files

/-- `toml(scripts, skip)`. -/
def tomlCat (files : List String) (skip : SkipSet) (scripts : NinjaScripts) :
    Except PyErr NinjaScripts :=
  if files = [] then .ok scripts
  else
    let s0 : NinjaScripts := { scripts with lint := rulesApp scripts.lint tomlLintRules }
    let s1 : NinjaScripts := { s0 with format := rulesApp s0.format tomlFormatRules }
    List.foldlM (fun s path => do
      let l ← lint s.lint "taplo-format-check" path skip
      let l ← txtLint l path skip
      let fm ← lint s.format "taplo-format" path skip
      let fm ← txtFormat fm path skip
      pure { s with lint := l, format := fm }) s1 files

/-- `zsh(scripts, skip)` (declared in the source; `go` never calls it). -/
def zshCat (files : List String) (skip : SkipSet) (scripts : NinjaScripts) :
    Except PyErr NinjaScripts :=
  if files = [] then .ok scripts
  else
    let s0 : NinjaScripts := { scripts with lint := rulesApp scripts.lint zshLintRules }
    List.foldlM (fun s path => do
      let l ← lint s.lint "zsh-n" path skip
      let l ← lint l "zsh-sc" path skip
      let l ← txtLint l path skip
      let fm ← txtFormat s.format path skip
      pure { s with lint := l, format := fm }) s0 files

/-- `xref(scripts, skip)`: one whole-repository edge. -/
def xrefCat (files : List String) (skip : SkipSet) (scripts : NinjaScripts) :
    Except PyErr NinjaScripts :=
  if files = [] then .ok scripts
  else
    let s0 : NinjaScripts := { scripts with lint := rulesApp scripts.lint xrefLintRules }
    do
    let l ← build s0.lint "xref" "xref" (sjoin files) skip
    pure { s0 with lint := l }

/-! ### The consistency validator `ok` -/

/-- The inner search of `ok`: some line starts with `build` and contains
`f": {rule}"` as a substring. -/
def okCheck (g : Script) (r : List Char) : Bool :=
  g.any fun line => pyStartswith line "build" && pyContains line (": " ++ String.mk r)

/-- The assertion loop of `ok` over the extracted rule names. -/
def okLoop (g : Script) (skip : SkipSet) : List (List Char) → Except PyErr Unit
  | [] => .ok ()
  | r :: rest =>
    if skipMem skip (String.mk r) then okLoop g skip rest
    else if okCheck g r then okLoop g skip rest
    else .error (.unrefRule (String.mk r))

/-- `line.split()[1]` (raising `IndexError` when absent). -/
def tokOf (line : String) : Except PyErr (List Char) :=
  match (wsSplit line.data)[1]? with
  | some t => .ok t
  | none => .error .indexError

/-- Sequential evaluation of a Python list comprehension: the first raised
exception aborts the whole comprehension. -/
def mapTokens (f : String → Except PyErr (List Char)) :
    List String → Except PyErr (List (List Char))
  | [] => .ok []
  | a :: l => do
    let b ← f a
    let bs ← mapTokens f l
    pure (b :: bs)

/-- The `rule_names` list comprehension of `ok`. -/
def ruleNamesE (g : Script) : Except PyErr (List (List Char)) :=
  mapTokens tokOf (g.filter fun l => pyStartswith l "rule")

/-- `ok(ninja, skip)`: a no-op when the `CI` environment indicator is set. -/
def okRun (ci : Bool) (g : Script) (skip : SkipSet) : Except PyErr Unit :=
  if ci then .ok () else ruleNamesE g >>= okLoop g skip

/-! ### The driver `go` -/

/-- The preamble of the lint graph (dedented literal in `go`). -/
def lintPreamble : Script :=
  ["", "builddir=.out/", "", "rule ttlint",
   "  command = ttlint -- $in && touch $out", "  description = ttlint"]

/-- The preamble of the fix graph. -/
def fixPreamble : Script := ["", "builddir=.out/"]

/-- The preamble of the format graph. -/
def formatPreamble : Script :=
  ["", "builddir=.out/", "", "rule ttlint-fix",
   "  command = ttlint --fix -- $in && touch $out", "  description = ttlint --fix"]

/-- Everything `go` reads from the outside world: the `git ls-files` result for
each category's patterns, the contents of the Python files, the repository
root used by `rs`, and the `CI` environment indicator. -/
structure RepoState where
  bashFiles : List String
  ghaFiles : List String
  jsonFiles : List String
  mdFiles : List String
  makeFiles : List String
  nixFiles : List String
  pyFiles : List (String × String)
  cargoFiles : List String
  rsFiles : List String
  shFiles : List String
  tomlFiles : List String
  xrefFiles : List String
  root : String
  ci : Bool
deriving DecidableEq

/-- The graph-building and validating phase of `go`, in source order. -/
def compile (st : RepoState) (skip : SkipSet) : Except PyErr NinjaScripts := do
  let scripts : NinjaScripts :=
    { lint := lintPreamble, fix := fixPreamble, format := formatPreamble }
  let scripts ← bashCat st.bashFiles skip scripts
  let scripts ← ghaCat st.ghaFiles skip scripts
  let scripts ← jsonCat st.jsonFiles skip scripts
  let scripts ← mdCat st.mdFiles skip scripts
  let scripts ← makeCat st.makeFiles skip scripts
  let scripts ← nixCat st.nixFiles skip scripts
  let scripts ← pyCat st.pyFiles skip scripts
  let scripts ← rsCat st.cargoFiles st.rsFiles st.root skip scripts
  let scripts ← shCat st.shFiles skip scripts
  let scripts ← tomlCat st.tomlFiles skip scripts
  let scripts ← xrefCat st.xrefFiles skip scripts
  let _ ← okRun st.ci scripts.lint skip
  let _ ← okRun st.ci scripts.fix skip
  let _ ← okRun st.ci scripts.format skip
  pure scripts

/-- Which persisted graph an external-executor invocation targets. -/
inductive GraphChoice
  | fixG
  | formatG
  | lintG
deriving DecidableEq

/-- The external-executor invocations performed by the tail of `go`.
`os.execvp` replaces the calling process and never returns, so the first
`execvp` reached is the only one executed: `ninja -f fix.ninja` under
`--fix`, else `ninja -f format.ninja` under `--format`, else
`ninja -f lint.ninja`. -/
def goExecInvocations (do_format do_fix : Bool) : List GraphChoice :=
  if do_fix then [.fixG] else if do_format then [.formatG] else [.lintG]

/-- The whole of `go`: compile and validate the graphs, persist them (the
returned `NinjaScripts` is what is written to disk), then hand off to the
external executor. -/
def goRun (st : RepoState) (skip : SkipSet) (do_format do_fix : Bool) :
    Except PyErr (NinjaScripts × List GraphChoice) :=
  (compile st skip).map fun s => (s, goExecInvocations do_format do_fix)

/-! ### whitespace.py -/

/-- The possible results of `pathlib.Path.read_text()`. -/
inductive ReadResult
  | text (s : String)
  | decodeError
  | readError (msg : String)
deriving DecidableEq

/-- The filesystem as seen by the checkers. -/
structure Fs where
  isFile : String → Bool
  isDir : String → Bool
  children : String → List String
  read : String → ReadResult

/-- Characters Python treats as whitespace for `str.rstrip()`. -/
def pyIsWs (c : Char) : Bool :=
  c = ' ' || c = '\t' || c = '\n' || c = '\r' || c = '\x0b' || c = '\x0c'

/-- Python `s.rstrip()` on a character list. -/
def pyRstripChars (l : List Char) : List Char :=
  (l.reverse.dropWhile pyIsWs).reverse

/-- Python `s.rstrip()`. -/
def pyRstrip (s : String) : String := String.mk (pyRstripChars s.data)

/-- Python `s.splitlines()` over `\n`, `\r\n` and `\r` boundaries
(the exotic Unicode line separators do not occur in the checked texts). -/
def pySplitlinesAux : List Char → List Char → List (List Char)
  | [], acc => if acc = [] then [] else [acc.reverse]
  | '\r' :: '\n' :: rest, acc => acc.reverse :: pySplitlinesAux rest []
  | '\n' :: rest, acc => acc.reverse :: pySplitlinesAux rest []
  | '\r' :: rest, acc => acc.reverse :: pySplitlinesAux rest []
  | c :: rest, acc => pySplitlinesAux rest (c :: acc)

/-- Python `s.splitlines()`. -/
def pySplitlines (s : String) : List String :=
  (pySplitlinesAux s.data []).map String.mk

/-- Outcome of running (part of) `whitespace.py`: `died` is `die(msg)` on the
first reported problem (`--fix` absent), `crashed` is an uncaught exception
from `read_text`, and `finished` carries the printed messages and the files
written by `--fix`. -/
inductive WsOut
  | died (msg : String)
  | crashed (msg : String)
  | finished (printed : List String) (wrote : List (String × String))
deriving DecidableEq

/-- `whitespace.py` `check_file(path, fix=fix)`.  Only `UnicodeDecodeError` is
caught; the messages are produced in source order (missing trailing newline,
multiple trailing newlines, then one per line with trailing whitespace), and
with `fix` unset the first message aborts via `die`. -/
def check_file (fs : Fs) (path : String) (fix : Bool) : WsOut :=
  if !(fs.isFile path) then .finished [] []
  else
    match fs.read path with
    | .decodeError => .finished [] []
    | .readError m => .crashed m
    | .text t0 =>
      let msgs1 := if !(pyEndswith t0 "\n") then [path ++ ": No trailing newline"] else []
      let two := pyEndswith t0 "\n\n"
      let msgs2 := if two then msgs1 ++ [path ++ ": Multiple trailing newlines"] else msgs1
      let t := if two then pyRstrip t0 else t0
      let lines := pySplitlines t
      let trailMsgs := (lines.enum.filter fun p => pyRstrip p.2 != p.2).map
        fun p => path ++ ":" ++ toString (p.1 + 1) ++ ": Trailing whitespace"
      let msgs := msgs2 ++ trailMsgs
      let fixedText := String.intercalate "\n" (lines.map pyRstrip) ++ "\n"
      if fix then .finished msgs (if msgs = [] then [] else [(path, fixedText)])
      else
        match msgs with
        | [] => .finished [] []
        | m :: _ => .died m

/-- The inner file loop of `whitespace.py` `check`: skip non-files, run
`check_file` on each, stopping at the first `die` or crash. -/
def checkFilesLoop (fs : Fs) (fix : Bool) : List String → WsOut
  | [] => .finished [] []
  | p :: rest =>
    if !(fs.isFile p) then checkFilesLoop fs fix rest
    else
      match check_file fs p fix with
      | .finished m w =>
        match checkFilesLoop fs fix rest with
        | .finished m2 w2 => .finished (m ++ m2) (w ++ w2)
        | bad => bad
      | bad => bad

/-! ### xref.py -/

/-- `xref.py` `Pos`. -/
structure Pos where
  file : String
  line : Nat
deriving DecidableEq

/-- The `defaultdict(set)` maps of `xref.py`, as insertion-ordered association
lists without duplicates (only membership and per-key counts are consumed). -/
abbrev XMap := List (String × Pos)

/-- Add `pos` to the set `m[k]`. -/
def xadd (m : XMap) (k : String) (pos : Pos) : XMap :=
  if (k, pos) ∈ m then m else m ++ [(k, pos)]

/-- Index of the first occurrence of `pat` in a character list
(Python `s.find`, with `none` for `-1`). -/
def strFindIdx (pat : List Char) : List Char → Option Nat
  | [] => if pat.isPrefixOf ([] : List Char) then some 0 else none
  | c :: t =>
    if pat.isPrefixOf (c :: t) then some 0
    else (strFindIdx pat t).map (· + 1)

/-- `xref.py` `find_def_or_ref(s, pattern)`. -/
def find_def_or_ref (s pattern : String) : Option String :=
  match strFindIdx pattern.data s.data with
  | none => none
  | some i =>
    let s2 := s.data.drop (i + pattern.data.length)
    match strFindIdx [' '] s2 with
    | none => some (String.mk s2)
    | some j => some (String.mk (s2.take j))

/-- `find_def`. -/
def find_def (s : String) : Option String := find_def_or_ref s " def: "

/-- `find_ref`. -/
def find_ref (s : String) : Option String := find_def_or_ref s " ref: "

/-- Python truthiness of the walrus targets in `collect`: `None` and the empty
string are both falsy. -/
def truthy : Option String → Option String
  | some s => if s = "" then none else some s
  | none => none

/-- `os.path`-style basename (`pathlib.Path(p).name`). -/
def pyName (p : String) : String := (p.splitOn "/").getLastD p

/-- `xref.py` `collect(path, content, defs, refs)`. -/
def collect (path content : String) (defs refs : XMap) : XMap × XMap :=
  if pyName path = "xref.py" then (defs, refs)
  else
    (pySplitlines content).enum.foldl
      (fun (dr : XMap × XMap) p =>
        let pos : Pos := { file := path, line := p.1 + 1 }
        match truthy (find_def p.2) with
        | some d => (xadd dr.1 d pos, dr.2)
        | none =>
          match truthy (find_ref p.2) with
          | some r => (dr.1, xadd dr.2 r pos)
          | none => dr)
      (defs, refs)

/-- The `while paths:` loop of `xref.py` `go`: pop from the back, recurse into
directories, skip undecodable files silently, `die` on any other read error.
`fuel` bounds the number of iterations (the recursion is over an arbitrary
filesystem). -/
def goLoop (fs : Fs) : Nat → List String → XMap → XMap → Except String (XMap × XMap)
  | 0, _, _, _ => .error "fuel exhausted"
  | fuel + 1, paths, defs, refs =>
    match paths.getLast? with
    | none => .ok (defs, refs)
    | some path =>
      let rest := paths.dropLast
      if fs.isDir path then goLoop fs fuel (rest ++ fs.children path) defs refs
      else
        match fs.read path with
        | .text content =>
          let dr := collect path content defs refs
          goLoop fs fuel rest dr.1 dr.2
        | .decodeError => goLoop fs fuel rest defs refs
        | .readError m => .error ("Error reading " ++ path ++ ": " ++ m)

/-! ### Derived notions used by theorem statements -/

/-- The rule field of a `build` edge line, `build $builddir/<out>: <rule>
<ins…>`: its third whitespace-separated token (the output slug is asserted to
contain no space, so the rule is always the third token).  An edge references
rule `r` by name exactly when its rule field is `r`. -/
def edgeRule (line : String) : Option (List Char) := (wsSplit line.data)[2]?

/-- `r` is referenced by no edge of `g`: every line of `g` that starts with
`build` has a rule field other than `r`. -/
def noEdgeFor (r : String) (g : Script) : Prop :=
  ∀ line ∈ g, pyStartswith line "build" = true → edgeRule line ≠ some r.data

/-- The three graph texts as persisted to disk. -/
def renderAll (s : NinjaScripts) : String × String × String :=
  (render s.lint, render s.fix, render s.format)

/-- A repository with no tracked files at all, under the CI indicator. -/
def emptyRepo : RepoState :=
  { bashFiles := [], ghaFiles := [], jsonFiles := [], mdFiles := [],
    makeFiles := [], nixFiles := [], pyFiles := [], cargoFiles := [],
    rsFiles := [], shFiles := [], tomlFiles := [], xrefFiles := [],
    root := "/repo", ci := true }

/-! ### Generic helper lemmas -/

theorem string_data_append (s t : String) : (s ++ t).data = s.data ++ t.data := rfl

theorem data_mk (l : List Char) : (String.mk l).data = l := rfl

theorem string_data_inj {s t : String} (h : s.data = t.data) : s = t :=
  congrArg String.mk h

@[simp] theorem exc_bind_ok {ε α β : Type} (a : α) (f : α → Except ε β) :
    (Except.ok a >>= f : Except ε β) = f a := rfl

@[simp] theorem exc_bind_error {ε α β : Type} (e : ε) (f : α → Except ε β) :
    (Except.error e >>= f : Except ε β) = .error e := rfl

theorem list_append_cancel_right {α : Type} {xs ys zs : List α}
    (h : xs ++ zs = ys ++ zs) : xs = ys := by
  induction xs generalizing ys with
  | nil =>
    cases ys with
    | nil => rfl
    | cons b bs =>
      exfalso
      have := congrArg List.length h
      simp at this
      omega
  | cons a as ih =>
    cases ys with
    | nil =>
      exfalso
      have := congrArg List.length h
      simp at this
      omega
    | cons b bs =>
      simp only [List.cons_append, List.cons.injEq] at h
      exact by rw [h.1, ih h.2]

/-- The separator substitution of the slug algorithm is injective on paths
that contain no hyphen. -/
theorem slashMap_inj {la lb : List Char} (ha : '-' ∉ la) (hb : '-' ∉ lb)
    (h : la.map (fun c => if c = '/' then '-' else c)
       = lb.map (fun c => if c = '/' then '-' else c)) : la = lb := by
  induction la generalizing lb with
  | nil =>
    cases lb with
    | nil => rfl
    | cons b bs => simp at h
  | cons a as ih =>
    cases lb with
    | nil => simp at h
    | cons b bs =>
      simp only [List.map_cons, List.cons.injEq] at h
      have hhead : a = b := by
        rcases h with ⟨h1, _⟩
        by_cases hA : a = '/'
        · by_cases hB : b = '/'
          · rw [hA, hB]
          · rw [if_pos hA, if_neg hB] at h1
            exfalso
            apply hb
            rw [← h1]
            exact List.mem_cons_self _ _
        · by_cases hB : b = '/'
          · rw [if_neg hA, if_pos hB] at h1
            exfalso
            apply ha
            rw [← h1]
            exact List.mem_cons_self _ _
          · rw [if_neg hA, if_neg hB] at h1
            exact h1
      subst hhead
      have := ih (fun hm => ha (List.mem_cons_of_mem _ hm))
        (fun hm => hb (List.mem_cons_of_mem _ hm)) h.2
      rw [this]

/-! ### C1: the per-file output slug -/

/-- C1, counterexample: the slug function is **not** injective over distinct
input paths with a fixed rule.  The distinct tracked paths `a/b.py` and
`a-b.py` (both matching the `*.py` pattern, both subject to the `ty` rule)
produce the same output slug, because replacing `/` by `-` is not reversible
on paths that already contain hyphens. -/
theorem c1_slug_collision :
    slugOf "a/b.py" "ty" = slugOf "a-b.py" "ty" ∧ ("a/b.py" : String) ≠ "a-b.py" := by
  constructor
  · rfl
  · decide

/-- C1, amended: for distinct tracked file paths neither of which contains the
join character `-`, the per-file output slugs emitted for the same rule are
distinct (on hyphen-free paths the separator substitution is reversible). -/
theorem c1_slug_injective_hyphen_free (a b rule : String) (hab : a ≠ b)
    (ha : '-' ∉ a.data) (hb : '-' ∉ b.data) : slugOf a rule ≠ slugOf b rule := by
  intro h
  apply hab
  apply string_data_inj
  have hd := congrArg String.data h
  simp only [slugOf, pyReplaceSlash, string_data_append, data_mk] at hd
  have h1 := list_append_cancel_right hd
  have h2 := list_append_cancel_right h1
  exact slashMap_inj ha hb h2

/-- C1, witness for the amended theorem at concrete hyphen-free paths. -/
theorem c1_witness :
    (("a/x.py" : String) ≠ "b/x.py" ∧ '-' ∉ ("a/x.py" : String).data ∧
      '-' ∉ ("b/x.py" : String).data) ∧
    slugOf "a/x.py" "ty" ≠ slugOf "b/x.py" "ty" :=
  ⟨⟨by decide, by decide, by decide⟩,
    c1_slug_injective_hyphen_free "a/x.py" "b/x.py" "ty" (by decide) (by decide) (by decide)⟩

/-! ### C2: what `--fix` actually runs -/

/-- C2, counterexample: with `--fix` requested (and `--format` not, the two
being mutually exclusive) the driver performs exactly one external-executor
invocation — against the fix graph — and **not** the claimed fix, format,
lint sequence: `execvp` replaces the process, so the format and lint
invocations in `go` are unreachable when `do_fix` holds. -/
theorem c2_fix_single_invocation :
    goRun emptyRepo none false true =
      .ok ({ lint := lintPreamble, fix := fixPreamble, format := formatPreamble },
           [GraphChoice.fixG]) ∧
    [GraphChoice.fixG] ≠ [GraphChoice.fixG, GraphChoice.formatG, GraphChoice.lintG] := by
  constructor
  · rfl
  · decide

/-- C2, amended: when `--fix` is requested, the driver replaces itself with a
single external-executor invocation against the fix graph; no subsequent
invocation against the format or lint graph is performed by the driver. -/
theorem c2_fix_invocations (st : RepoState) (skip : SkipSet) (do_format : Bool)
    (s : NinjaScripts) (invs : List GraphChoice)
    (h : goRun st skip do_format true = .ok (s, invs)) : invs = [GraphChoice.fixG] := by
  unfold goRun at h
  cases hc : compile st skip with
  | ok v =>
    rw [hc] at h
    simp only [Except.map] at h
    cases h
    rfl
  | error e =>
    rw [hc] at h
    simp [Except.map] at h

/-- C2, witness for the amended theorem on the empty repository. -/
theorem c2_witness :
    goRun emptyRepo none false true =
      .ok ({ lint := lintPreamble, fix := fixPreamble, format := formatPreamble },
           [GraphChoice.fixG]) ∧
    [GraphChoice.fixG] = [GraphChoice.fixG] :=
  ⟨by rfl,
    c2_fix_invocations emptyRepo none false
      { lint := lintPreamble, fix := fixPreamble, format := formatPreamble }
      [GraphChoice.fixG] (by rfl)⟩

/-! ### C4: determinism of the compiler -/

/-- C4: the graph compiler is deterministic — two runs over identical inputs
(the same enumerated file lists and contents, the same root and CI indicator,
the same skip set) produce byte-identical lint, fix and format graph text.
The whole of the compilation is a function of `RepoState` and the skip set
alone: there is no other state it reads. -/
theorem c4_deterministic (st1 st2 : RepoState) (skip1 skip2 : SkipSet)
    (h1 : st1 = st2) (h2 : skip1 = skip2) :
    (compile st1 skip1).map renderAll = (compile st2 skip2).map renderAll := by
  subst h1
  subst h2
  rfl

/-- C4, witness at a concrete repository state. -/
theorem c4_witness :
    (emptyRepo = emptyRepo ∧ (none : SkipSet) = none) ∧
    (compile emptyRepo none).map renderAll = (compile emptyRepo none).map renderAll :=
  ⟨⟨rfl, rfl⟩, c4_deterministic emptyRepo emptyRepo none none rfl rfl⟩

/-! ### C6: empty categories add nothing -/

/-- C6: every category module whose enumerated file list is empty returns the
three graphs unchanged (and succeeds): no rule declarations and no edges for
that category appear in any graph.  For the Rust category the enumerated
source list is the `*.rs` list; the early return fires regardless of the
manifest list. -/
theorem c6_empty_category_unchanged (skip : SkipSet) (scripts : NinjaScripts)
    (cargo : List String) (root : String) :
    bashCat [] skip scripts = .ok scripts ∧
    ghaCat [] skip scripts = .ok scripts ∧
    jsonCat [] skip scripts = .ok scripts ∧
    mdCat [] skip scripts = .ok scripts ∧
    makeCat [] skip scripts = .ok scripts ∧
    nixCat [] skip scripts = .ok scripts ∧
    pyCat [] skip scripts = .ok scripts ∧
    rsCat cargo [] root skip scripts = .ok scripts ∧
    shCat [] skip scripts = .ok scripts ∧
    tomlCat [] skip scripts = .ok scripts ∧
    zshCat [] skip scripts = .ok scripts ∧
    xrefCat [] skip scripts = .ok scripts := by
  refine ⟨rfl, rfl, rfl, rfl, rfl, rfl, rfl, rfl, rfl, rfl, rfl, rfl⟩

/-! ### C7: the whitespace assertion of the accumulator -/

/-- C7: for a rule that is not skipped, an attempt to append an edge whose
output name contains a space is rejected by assertion failure, and an edge
whose output name contains no space is appended to the graph. -/
theorem c7_build_space_assertion (ninja : Script) (out rule ins : String)
    (skip : SkipSet) (h : skipMem skip rule = false) :
    (' ' ∈ out.data → build ninja out rule ins skip = .error (.assertSpace out)) ∧
    (' ' ∉ out.data → build ninja out rule ins skip = .ok (ninja ++ [buildLine out rule ins])) := by
  constructor <;> intro h2 <;> simp [build, h, h2]

/-- C7, witness: a spaced output is rejected, a space-free one is appended. -/
theorem c7_witness :
    (skipMem none "r" = false) ∧
    build [] "a b" "r" "x" none = .error (.assertSpace "a b") ∧
    build [] "ab" "r" "x" none = .ok ([] ++ [buildLine "ab" "r" "x"]) :=
  ⟨by decide,
    (c7_build_space_assertion [] "a b" "r" "x" none (by decide)).1 (by decide),
    (c7_build_space_assertion [] "ab" "r" "x" none (by decide)).2 (by decide)⟩

/-! ### C8: the CI indicator disables validation -/

/-- C8: when the CI environment indicator is set, the consistency validator
returns immediately without checking anything — for every graph and skip set,
including graphs that declare rules with no edges at all. -/
theorem c8_ci_skips_validation (g : Script) (skip : SkipSet) :
    okRun true g skip = .ok () := rfl

/-! ### C9: undecodable files are skipped silently -/

/-- C9: a tracked file whose contents cannot be decoded as text is silently
skipped by both hygiene checking and cross-reference collection: the
whitespace checker reports nothing, writes nothing and does not abort for
that file and simply proceeds with the remaining files, and the
cross-reference walker drops the file from its worklist without touching the
collected definitions or references and without dying. -/
theorem c9_decode_error_skipped (fs : Fs) (p : String) (fix : Bool)
    (rest paths : List String) (defs refs : XMap) (fuel : Nat)
    (hf : fs.isFile p = true) (hr : fs.read p = .decodeError)
    (hd : fs.isDir p = false) :
    check_file fs p fix = .finished [] [] ∧
    checkFilesLoop fs fix (p :: rest) = checkFilesLoop fs fix rest ∧
    goLoop fs (fuel + 1) (paths ++ [p]) defs refs = goLoop fs fuel paths defs refs := by
  have h1 : check_file fs p fix = .finished [] [] := by
    unfold check_file
    rw [hf, hr]
    simp
  refine ⟨h1, ?_, ?_⟩
  · conv_lhs => rw [checkFilesLoop]
    rw [hf, h1]
    simp only [Bool.not_true, Bool.false_eq_true, if_false]
    cases hrec : checkFilesLoop fs fix rest <;> simp
  · conv_lhs => rw [goLoop]
    rw [List.getLast?_concat, List.dropLast_concat]
    simp [hd, hr]

/-- Filesystem for the C9 witness: a single undecodable file. -/
def c9fs : Fs :=
  { isFile := fun _ => true, isDir := fun _ => false,
    children := fun _ => [], read := fun _ => .decodeError }

/-- C9, witness at the concrete filesystem `c9fs`. -/
theorem c9_witness :
    (c9fs.isFile "blob.bin" = true ∧ c9fs.read "blob.bin" = .decodeError ∧
      c9fs.isDir "blob.bin" = false) ∧
    (check_file c9fs "blob.bin" false = .finished [] [] ∧
      checkFilesLoop c9fs false ["blob.bin"] = checkFilesLoop c9fs false [] ∧
      goLoop c9fs 1 ([] ++ ["blob.bin"]) [] [] = goLoop c9fs 0 [] [] []) :=
  ⟨⟨rfl, rfl, rfl⟩, c9_decode_error_skipped c9fs "blob.bin" false [] [] [] [] 0 rfl rfl rfl⟩

/-! ### C10: `# noqa` opts a Python file out of per-file edges -/

/-- An `Except` fold is unchanged by a list element on which the step is the
pure identity. -/
theorem foldlM_middle_id {σ α : Type} (step : σ → α → Except PyErr σ) (e : α)
    (he : ∀ s, step s e = .ok s) (ys : List α) :
    ∀ (xs : List α) (s : σ),
      List.foldlM step s (xs ++ e :: ys) = List.foldlM step s (xs ++ ys) := by
  intro xs
  induction xs with
  | nil =>
    intro s
    simp only [List.nil_append, List.foldlM_cons, he, exc_bind_ok]
  | cons x xs ih =>
    intro s
    simp only [List.cons_append, List.foldlM_cons]
    cases hx : step s x with
    | error err => simp only [exc_bind_error]
    | ok s1 => simp only [exc_bind_ok]; exact ih s1

/-- C10: a Python file whose contents start with `# noqa` contributes no
per-file edge to any of the three graphs — the module behaves exactly as if
the file were absent from its loop — while the Python rule declarations are
still emitted (`pyBody` always appends them; the enumerated list is nonempty,
so the empty-list early return does not fire). -/
theorem c10_noqa_skipped (xs ys : List (String × String)) (p c : String)
    (skip : SkipSet) (scripts : NinjaScripts)
    (hn : pyStartswith c "# noqa" = true) :
    pyCat (xs ++ (p, c) :: ys) skip scripts = pyBody (xs ++ ys) skip scripts := by
  have hne : xs ++ (p, c) :: ys ≠ [] := by simp
  unfold pyCat
  rw [if_neg hne]
  unfold pyBody
  exact foldlM_middle_id _ (p, c) (fun s => by simp only [hn, if_true]; rfl) ys xs _

/-- C10, witness: a single `# noqa` file yields the declarations and no edges. -/
theorem c10_witness :
    pyStartswith "# noqa" "# noqa" = true ∧
    pyCat [("a.py", "# noqa")] none { lint := [], fix := [], format := [] } =
      pyBody [] none { lint := [], fix := [], format := [] } :=
  ⟨by decide,
    c10_noqa_skipped [] [] "a.py" "# noqa" none { lint := [], fix := [], format := [] }
      (by decide)⟩

/-! ### C3: the consistency validator -/

/-- A graph exhibiting the validator's substring false positive: `ttlint` is
declared, and the only edge uses the rule `ttlint-fix`, whose name contains
`ttlint` as a prefix. -/
def c3Graph : Script := ["rule ttlint", "build $builddir/x.ttlint-fix: ttlint-fix x"]

/-- C3, counterexample: in `c3Graph` the rule `ttlint` is declared and not
skipped, and **no** edge references it by name (the sole edge's rule field is
`ttlint-fix`), yet the validator passes (CI indicator unset): its reference
search accepts any `build` line containing `": ttlint"` as a substring, which
`": ttlint-fix"` does.  The claim says the validator must fail fatally here. -/
theorem c3_substring_false_positive :
    (pyStartswith "rule ttlint" "rule" = true ∧ tokOf "rule ttlint" = .ok "ttlint".data) ∧
    skipMem none "ttlint" = false ∧
    (∀ line ∈ c3Graph, pyStartswith line "build" = true →
      edgeRule line ≠ some "ttlint".data) ∧
    okRun false c3Graph none = .ok () := by
  decide

theorem okCheck_iff (g : Script) (r : List Char) :
    okCheck g r = true ↔
      ∃ line ∈ g, pyStartswith line "build" = true ∧
        pyContains line (": " ++ String.mk r) = true := by
  simp [okCheck, List.any_eq_true, Bool.and_eq_true]

theorem okLoop_ok_iff (g : Script) (skip : SkipSet) (names : List (List Char)) :
    okLoop g skip names = .ok () ↔
      ∀ r ∈ names, skipMem skip (String.mk r) = false → okCheck g r = true := by
  induction names with
  | nil => simp [okLoop]
  | cons r rest ih =>
    rw [okLoop]
    by_cases hs : skipMem skip (String.mk r) = true
    · rw [if_pos hs]
      constructor
      · intro h x hx hxs
        rcases List.mem_cons.mp hx with rfl | hx'
        · rw [hs] at hxs
          exact absurd hxs (by simp)
        · exact ih.mp h x hx' hxs
      · intro h
        exact ih.mpr fun x hx hxs => h x (List.mem_cons_of_mem _ hx) hxs
    · have hs' : skipMem skip (String.mk r) = false := by
        cases hmem : skipMem skip (String.mk r)
        · rfl
        · exact absurd hmem hs
      rw [if_neg hs]
      by_cases hc : okCheck g r = true
      · rw [if_pos hc]
        constructor
        · intro h x hx hxs
          rcases List.mem_cons.mp hx with rfl | hx'
          · exact hc
          · exact ih.mp h x hx' hxs
        · intro h
          exact ih.mpr fun x hx hxs => h x (List.mem_cons_of_mem _ hx) hxs
      · rw [if_neg hc]
        constructor
        · intro h
          exact absurd h (by simp)
        · intro h
          exact absurd (h r (List.mem_cons_self _ _) hs') hc

theorem okLoop_error_unref (g : Script) (skip : SkipSet) :
    ∀ (names : List (List Char)) (e : String),
      okLoop g skip names = .error (.unrefRule e) →
      ∃ r ∈ names, String.mk r = e ∧ skipMem skip e = false ∧ okCheck g r = false := by
  intro names
  induction names with
  | nil =>
    intro e h
    simp [okLoop] at h
  | cons r rest ih =>
    intro e h
    rw [okLoop] at h
    by_cases hs : skipMem skip (String.mk r) = true
    · rw [if_pos hs] at h
      rcases ih e h with ⟨x, hx, hxe, hxs, hxc⟩
      exact ⟨x, List.mem_cons_of_mem _ hx, hxe, hxs, hxc⟩
    · have hs' : skipMem skip (String.mk r) = false := by
        cases hmem : skipMem skip (String.mk r)
        · rfl
        · exact absurd hmem hs
      rw [if_neg hs] at h
      by_cases hc : okCheck g r = true
      · rw [if_pos hc] at h
        rcases ih e h with ⟨x, hx, hxe, hxs, hxc⟩
        exact ⟨x, List.mem_cons_of_mem _ hx, hxe, hxs, hxc⟩
      · rw [if_neg hc] at h
        have he : String.mk r = e := by simpa using h
        refine ⟨r, List.mem_cons_self _ _, he, by rw [← he]; exact hs', ?_⟩
        cases hcc : okCheck g r
        · rfl
        · exact absurd hcc hc

/-- C3, amended: with the CI indicator unset and rule-name extraction
succeeding, the validator passes **iff** every declared, non-skipped rule name
`r` occurs via the substring `": r"` in some `build`-prefixed line (a by-name
reference qualifies, but so does an edge whose rule name merely extends `r`);
and when it fails, the fatal error names an offending declared, non-skipped
rule for which no such line exists. -/
theorem c3_validator_characterization (g : Script) (skip : SkipSet)
    (names : List (List Char)) (h : ruleNamesE g = .ok names) :
    (okRun false g skip = .ok () ↔
      ∀ r ∈ names, skipMem skip (String.mk r) = false →
        ∃ line ∈ g, pyStartswith line "build" = true ∧
          pyContains line (": " ++ String.mk r) = true) ∧
    (∀ e, okRun false g skip = .error (.unrefRule e) →
      ∃ r ∈ names, String.mk r = e ∧ skipMem skip e = false ∧
        ¬ ∃ line ∈ g, pyStartswith line "build" = true ∧
          pyContains line (": " ++ e) = true) := by
  have hrun : okRun false g skip = okLoop g skip names := by
    show ruleNamesE g >>= okLoop g skip = okLoop g skip names
    rw [h, exc_bind_ok]
  constructor
  · rw [hrun, okLoop_ok_iff]
    simp only [okCheck_iff]
  · intro e he
    rw [hrun] at he
    rcases okLoop_error_unref g skip names e he with ⟨r, hr, hre, hse, hc⟩
    refine ⟨r, hr, hre, hse, ?_⟩
    rw [← hre]
    intro hex
    have := (okCheck_iff g r).mpr hex
    rw [hc] at this
    exact absurd this (by simp)

/-- C3, witness for the amended theorem: a graph whose single declared rule is
referenced by its single edge passes validation. -/
theorem c3_witness :
    ruleNamesE (["rule a", "build $builddir/x.a: a x"] : Script) = .ok [['a']] ∧
    okRun false (["rule a", "build $builddir/x.a: a x"] : Script) none = .ok () :=
  ⟨by decide,
    (c3_validator_characterization (["rule a", "build $builddir/x.a: a x"] : Script)
      none [['a']] (by decide)).1.mpr (by decide)⟩

/-! ### C5: machinery — tokenizing emitted edge lines -/

theorem wsSplitAux_nonspace_cons (c : Char) (hc : c ≠ ' ') (rest acc : List Char) :
    wsSplitAux (c :: rest) acc = wsSplitAux rest (c :: acc) := by
  rw [wsSplitAux, if_neg hc]

theorem wsSplitAux_nonspace (xs : List Char) (h : ∀ c ∈ xs, c ≠ ' ') :
    ∀ (rest acc : List Char),
      wsSplitAux (xs ++ rest) acc = wsSplitAux rest (xs.reverse ++ acc) := by
  induction xs with
  | nil => intro rest acc; simp
  | cons c cs ih =>
    intro rest acc
    simp only [List.cons_append]
    rw [wsSplitAux_nonspace_cons c (h c (List.mem_cons_self _ _)) _ acc]
    rw [ih (fun x hx => h x (List.mem_cons_of_mem _ hx)) rest (c :: acc)]
    congr 1
    simp

theorem wsSplitAux_space (rest acc : List Char) (h : acc ≠ []) :
    wsSplitAux (' ' :: rest) acc = acc.reverse :: wsSplitAux rest [] := by
  rw [wsSplitAux, if_pos rfl, if_neg h]

theorem wsSplit_buildLine (out rule ins : String) (ho : ' ' ∉ out.data)
    (hr : ' ' ∉ rule.data) (hne : rule.data ≠ []) :
    wsSplit (buildLine out rule ins).data =
      "build".data :: ("$builddir/".data ++ out.data ++ [':']) :: rule.data ::
        wsSplit ins.data := by
  have e1 : ("build $builddir/" : String).data =
      "build".data ++ (' ' :: ("$builddir/" : String).data) := by decide
  have e2 : (": " : String).data = ':' :: [' '] := by decide
  have e3 : (" " : String).data = [' '] := by decide
  have hdata : (buildLine out rule ins).data =
      "build".data ++ (' ' :: (("$builddir/" : String).data ++ (out.data ++
        (':' :: (' ' :: (rule.data ++ (' ' :: ins.data))))))) := by
    simp only [buildLine, string_data_append, e1, e2, e3, List.append_assoc,
      List.cons_append, List.singleton_append, List.nil_append]
  rw [wsSplit, hdata]
  rw [wsSplitAux_nonspace ("build".data) (by decide)]
  rw [wsSplitAux_space _ _ (by decide)]
  rw [wsSplitAux_nonspace (("$builddir/" : String).data) (by decide)]
  rw [wsSplitAux_nonspace out.data (fun c hc he => ho (he ▸ hc))]
  rw [wsSplitAux_nonspace_cons ':' (by decide)]
  rw [wsSplitAux_space _ _ (by simp)]
  rw [wsSplitAux_nonspace rule.data (fun c hc he => hr (he ▸ hc))]
  rw [wsSplitAux_space _ _ (by simp [hne])]
  simp [wsSplit]

theorem edgeRule_buildLine (out rule ins : String) (ho : ' ' ∉ out.data)
    (hr : ' ' ∉ rule.data) (hne : rule.data ≠ []) :
    edgeRule (buildLine out rule ins) = some rule.data := by
  rw [edgeRule, wsSplit_buildLine out rule ins ho hr hne]
  simp

theorem isPrefixOf_cons₂ (a b : Char) (as bs : List Char) :
    (a :: as).isPrefixOf (b :: bs) = (a == b && as.isPrefixOf bs) := rfl

theorem nil_isPrefixOf_char (l : List Char) : ([] : List Char).isPrefixOf l = true := by
  cases l <;> rfl

theorem isPrefixOf_append_left (p : List Char) :
    ∀ (a b : List Char), p.length ≤ a.length →
      p.isPrefixOf (a ++ b) = p.isPrefixOf a := by
  induction p with
  | nil => intro a b _; rw [nil_isPrefixOf_char, nil_isPrefixOf_char]
  | cons c cs ih =>
    intro a b h
    cases a with
    | nil => simp at h
    | cons d ds =>
      simp only [List.cons_append, isPrefixOf_cons₂]
      rw [ih ds b (by simpa using h)]

theorem pyStartswith_append_left (a b pre : String)
    (h : pre.data.length ≤ a.data.length) :
    pyStartswith (a ++ b) pre = pyStartswith a pre := by
  unfold pyStartswith
  rw [string_data_append]
  exact isPrefixOf_append_left pre.data a.data b.data h

/-! ### C5: machinery — lines that can never reference a rule -/

/-- A line that no rule can be referenced by: it is not `build`-prefixed, or
it has no third token. -/
def lineSafe (line : String) : Prop :=
  pyStartswith line "build" = false ∨ edgeRule line = none

instance (line : String) : Decidable (lineSafe line) := by
  unfold lineSafe
  infer_instance

theorem noEdgeFor_of_safe (g : Script) (h : ∀ line ∈ g, lineSafe line) (r : String) :
    noEdgeFor r g := by
  intro line hl hb
  rcases h line hl with h' | h'
  · rw [hb] at h'
    exact absurd h' (by simp)
  · rw [h']
    simp

theorem noEdgeFor_append (r : String) (g1 g2 : Script) (h1 : noEdgeFor r g1)
    (h2 : noEdgeFor r g2) : noEdgeFor r (g1 ++ g2) := by
  intro line hl
  rcases List.mem_append.mp hl with h | h
  · exact h1 line h
  · exact h2 line h

theorem noEdgeFor_rulesApp (r : String) (g block : Script) (hg : noEdgeFor r g)
    (hb : ∀ line ∈ block, lineSafe line) : noEdgeFor r (rulesApp g block) :=
  noEdgeFor_append r g block hg (noEdgeFor_of_safe block hb r)

theorem command_line_safe (x : String) : lineSafe ("  command = " ++ x) := by
  left
  rw [pyStartswith_append_left "  command = " x "build" (by decide)]
  decide

theorem rsLintRules_safe (cd root : String) :
    ∀ line ∈ rsLintRules cd root, lineSafe line := by
  intro line hl
  simp only [rsLintRules, List.mem_cons, List.not_mem_nil, or_false] at hl
  rcases hl with rfl | rfl | rfl | rfl | rfl | rfl | rfl | rfl
  · decide
  · decide
  · exact command_line_safe _
  · decide
  · decide
  · decide
  · exact command_line_safe _
  · decide

theorem rsFixRules_safe (cd root : String) :
    ∀ line ∈ rsFixRules cd root, lineSafe line := by
  intro line hl
  simp only [rsFixRules, List.mem_cons, List.not_mem_nil, or_false] at hl
  rcases hl with rfl | rfl | rfl | rfl
  · decide
  · decide
  · exact command_line_safe _
  · decide

theorem rsFormatRules_safe (cd root : String) :
    ∀ line ∈ rsFormatRules cd root, lineSafe line := by
  intro line hl
  simp only [rsFormatRules, List.mem_cons, List.not_mem_nil, or_false] at hl
  rcases hl with rfl | rfl | rfl | rfl
  · decide
  · decide
  · exact command_line_safe _
  · decide

/-! ### C5: machinery — preservation of the skip invariant -/

theorem exc_bind_eq_ok {ε α β : Type} {x : Except ε α} {f : α → Except ε β} {b : β} :
    (x >>= f) = .ok b ↔ ∃ a, x = .ok a ∧ f a = .ok b := by
  cases x <;> simp

/-- Appending one edge through `build` preserves `noEdgeFor r` as long as the
appended rule is distinct from `r` whenever the skip filter lets it through. -/
theorem build_pres (r : String) (g g' : Script) (out rule ins : String)
    (skp : SkipSet) (hrs : ' ' ∉ rule.data) (hrne : rule.data ≠ [])
    (hne : skipMem skp rule = false → rule ≠ r)
    (h : build g out rule ins skp = .ok g') (hg : noEdgeFor r g) : noEdgeFor r g' := by
  unfold build at h
  cases hskip : skipMem skp rule with
  | true =>
    rw [if_pos hskip] at h
    simp only [Except.ok.injEq] at h
    rw [← h]
    exact hg
  | false =>
    rw [if_neg (by rw [hskip]; simp)] at h
    by_cases hsp : ' ' ∈ out.data
    · rw [if_pos hsp] at h
      exact absurd h (by simp)
    · rw [if_neg hsp] at h
      simp only [Except.ok.injEq] at h
      rw [← h]
      apply noEdgeFor_append r g [buildLine out rule ins] hg
      intro line hl hb
      have hline : line = buildLine out rule ins := by simpa using hl
      rw [hline, edgeRule_buildLine out rule ins hsp hrs hrne]
      intro hEq
      have hdata : rule.data = r.data := by simpa using hEq
      exact hne hskip (string_data_inj hdata)

/-- Appending one per-file edge through `lint` preserves `noEdgeFor r` for
skipped `r`: either the edge's rule is itself skipped (nothing is appended) or
it got past the skip filter and is therefore distinct from `r`. -/
theorem lint_pres (sk : List String) (r : String) (hr : r ∈ sk)
    (g g' : Script) (rule path : String) (hrs : ' ' ∉ rule.data)
    (hrne : rule.data ≠ [])
    (h : lint g rule path (some sk) = .ok g') (hg : noEdgeFor r g) : noEdgeFor r g' := by
  unfold lint at h
  cases hskip : skipMem (some sk) rule with
  | true =>
    rw [if_pos hskip] at h
    simp only [Except.ok.injEq] at h
    rw [← h]
    exact hg
  | false =>
    rw [if_neg (by rw [hskip]; simp)] at h
    have hneq : rule ≠ r := by
      intro hEq
      exact absurd hr (hEq ▸ of_decide_eq_false hskip)
    exact build_pres r g g' (slugOf path rule) rule path none hrs hrne
      (fun _ => hneq) h hg

/-- `lint_pres` for a direct `build` call with the global skip set. -/
theorem build_skip_pres (sk : List String) (r : String) (hr : r ∈ sk)
    (g g' : Script) (out rule ins : String) (hrs : ' ' ∉ rule.data)
    (hrne : rule.data ≠ [])
    (h : build g out rule ins (some sk) = .ok g') (hg : noEdgeFor r g) :
    noEdgeFor r g' :=
  build_pres r g g' out rule ins (some sk) hrs hrne
    (fun hf hEq => absurd hr (hEq ▸ of_decide_eq_false hf)) h hg

/-- Generic preservation through `List.foldlM` over `Except`. -/
theorem foldlM_pres {σ α : Type} (P : σ → Prop) (step : σ → α → Except PyErr σ)
    (hstep : ∀ s a s', step s a = .ok s' → P s → P s') :
    ∀ (l : List α) (s s' : σ), List.foldlM step s l = .ok s' → P s → P s' := by
  intro l
  induction l with
  | nil =>
    intro s s' h hp
    simp only [List.foldlM_nil] at h
    have : s = s' := by
      have h' : Except.ok (ε := PyErr) s = Except.ok s' := h
      simpa using h'
    rw [← this]
    exact hp
  | cons a l ih =>
    intro s s' h hp
    rw [List.foldlM_cons] at h
    rcases exc_bind_eq_ok.mp h with ⟨s1, h1, h2⟩
    exact ih s1 s' h2 (hstep s a s1 h1 hp)

/-- The skip invariant over the three accumulated graphs. -/
def NSP (r : String) (s : NinjaScripts) : Prop :=
  noEdgeFor r s.lint ∧ noEdgeFor r s.fix ∧ noEdgeFor r s.format

theorem bashCat_pres (sk : List String) (r : String) (hr : r ∈ sk)
    (files : List String) (scripts s' : NinjaScripts)
    (h : bashCat files (some sk) scripts = .ok s') (hp : NSP r scripts) : NSP r s' := by
  unfold bashCat at h
  by_cases hf : files = []
  · rw [if_pos hf] at h
    simp only [Except.ok.injEq] at h
    rw [← h]
    exact hp
  · rw [if_neg hf] at h
    refine foldlM_pres (NSP r) _ ?_ files _ s' h
      ⟨noEdgeFor_rulesApp r _ bashLintRules hp.1 (by decide), hp.2.1, hp.2.2⟩
    intro s a s2 hs hps
    rcases exc_bind_eq_ok.mp hs with ⟨l1, h1, hs⟩
    rcases exc_bind_eq_ok.mp hs with ⟨l2, h2, hs⟩
    rcases exc_bind_eq_ok.mp hs with ⟨l3, h3, hs⟩
    rcases exc_bind_eq_ok.mp hs with ⟨f1, h4, hs⟩
    have hs2 : s2 = { s with lint := l3, format := f1 } := by
      have h' : Except.ok (ε := PyErr) { s with lint := l3, format := f1 } = Except.ok s2 := hs
      simpa using h'.symm
    rw [hs2]
    refine ⟨?_, hps.2.1, ?_⟩
    · exact lint_pres sk r hr _ _ "ttlint" a (by decide) (by decide) h3
        (lint_pres sk r hr _ _ "bash-sc" a (by decide) (by decide) h2
          (lint_pres sk r hr _ _ "bash-n" a (by decide) (by decide) h1 hps.1))
    · exact lint_pres sk r hr _ _ "ttlint-fix" a (by decide) (by decide) h4 hps.2.2

theorem ghaCat_pres (sk : List String) (r : String) (hr : r ∈ sk)
    (files : List String) (scripts s' : NinjaScripts)
    (h : ghaCat files (some sk) scripts = .ok s') (hp : NSP r scripts) : NSP r s' := by
  unfold ghaCat at h
  by_cases hf : files = []
  · rw [if_pos hf] at h
    simp only [Except.ok.injEq] at h
    rw [← h]
    exact hp
  · rw [if_neg hf] at h
    refine foldlM_pres (NSP r) _ ?_ files _ s' h
      ⟨noEdgeFor_rulesApp r _ ghaLintRules hp.1 (by decide),
       noEdgeFor_rulesApp r _ ghaFixRules hp.2.1 (by decide), hp.2.2⟩
    intro s a s2 hs hps
    by_cases hdep : pyEndswith a "workflows/dependabot.yml" = true
    · rw [if_pos hdep] at hs
      have h' : Except.ok (ε := PyErr) s = Except.ok s2 := hs
      have : s = s2 := by simpa using h'
      rw [← this]
      exact hps
    · rw [if_neg hdep] at hs
      rcases exc_bind_eq_ok.mp hs with ⟨l1, h1, hs⟩
      rcases exc_bind_eq_ok.mp hs with ⟨f1, h2, hs⟩
      rcases exc_bind_eq_ok.mp hs with ⟨l2, h3, hs⟩
      rcases exc_bind_eq_ok.mp hs with ⟨f2, h4, hs⟩
      have hs2 : s2 = { lint := l2, fix := f1, format := f2 } := by
        have h' : Except.ok (ε := PyErr) ({ lint := l2, fix := f1, format := f2 } : NinjaScripts)
            = Except.ok s2 := hs
        simpa using h'.symm
      rw [hs2]
      refine ⟨?_, ?_, ?_⟩
      · exact lint_pres sk r hr _ _ "ttlint" a (by decide) (by decide) h3
          (lint_pres sk r hr _ _ "zizmor" a (by decide) (by decide) h1 hps.1)
      · exact lint_pres sk r hr _ _ "zizmor-fix" a (by decide) (by decide) h2 hps.2.1
      · exact lint_pres sk r hr _ _ "ttlint-fix" a (by decide) (by decide) h4 hps.2.2

theorem jsonCat_pres (sk : List String) (r : String) (hr : r ∈ sk)
    (files : List String) (scripts s' : NinjaScripts)
    (h : jsonCat files (some sk) scripts = .ok s') (hp : NSP r scripts) : NSP r s' := by
  unfold jsonCat at h
  by_cases hf : files = []
  · rw [if_pos hf] at h
    simp only [Except.ok.injEq] at h
    rw [← h]
    exact hp
  · rw [if_neg hf] at h
    refine foldlM_pres (NSP r) _ ?_ files _ s' h
      ⟨noEdgeFor_rulesApp r _ jsonLintRules hp.1 (by decide), hp.2.1, hp.2.2⟩
    intro s a s2 hs hps
    rcases exc_bind_eq_ok.mp hs with ⟨l1, h1, hs⟩
    rcases exc_bind_eq_ok.mp hs with ⟨l2, h2, hs⟩
    rcases exc_bind_eq_ok.mp hs with ⟨f1, h3, hs⟩
    have hs2 : s2 = { s with lint := l2, format := f1 } := by
      have h' : Except.ok (ε := PyErr) { s with lint := l2, format := f1 } = Except.ok s2 := hs
      simpa using h'.symm
    rw [hs2]
    refine ⟨?_, hps.2.1, ?_⟩
    · exact lint_pres sk r hr _ _ "ttlint" a (by decide) (by decide) h2
        (lint_pres sk r hr _ _ "jq" a (by decide) (by decide) h1 hps.1)
    · exact lint_pres sk r hr _ _ "ttlint-fix" a (by decide) (by decide) h3 hps.2.2

theorem mdCat_pres (sk : List String) (r : String) (hr : r ∈ sk)
    (files : List String) (scripts s' : NinjaScripts)
    (h : mdCat files (some sk) scripts = .ok s') (hp : NSP r scripts) : NSP r s' := by
  unfold mdCat at h
  by_cases hf : files = []
  · rw [if_pos hf] at h
    simp only [Except.ok.injEq] at h
    rw [← h]
    exact hp
  · rw [if_neg hf] at h
    refine foldlM_pres (NSP r) _ ?_ files _ s' h
      ⟨noEdgeFor_rulesApp r _ mdLintRules hp.1 (by decide),
       noEdgeFor_rulesApp r _ mdFixRules hp.2.1 (by decide), hp.2.2⟩
    intro s a s2 hs hps
    rcases exc_bind_eq_ok.mp hs with ⟨l1, h1, hs⟩
    rcases exc_bind_eq_ok.mp hs with ⟨l2, h2, hs⟩
    rcases exc_bind_eq_ok.mp hs with ⟨f1, h3, hs⟩
    rcases exc_bind_eq_ok.mp hs with ⟨l3, h4, hs⟩
    rcases exc_bind_eq_ok.mp hs with ⟨f2, h5, hs⟩
    have hs2 : s2 = { lint := l3, fix := f1, format := f2 } := by
      have h' : Except.ok (ε := PyErr) ({ lint := l3, fix := f1, format := f2 } : NinjaScripts)
          = Except.ok s2 := hs
      simpa using h'.symm
    rw [hs2]
    refine ⟨?_, ?_, ?_⟩
    · exact lint_pres sk r hr _ _ "ttlint" a (by decide) (by decide) h4
        (lint_pres sk r hr _ _ "typos" a (by decide) (by decide) h2
          (lint_pres sk r hr _ _ "mdlynx" a (by decide) (by decide) h1 hps.1))
    · exact lint_pres sk r hr _ _ "typos-fix" a (by decide) (by decide) h3 hps.2.1
    · exact lint_pres sk r hr _ _ "ttlint-fix" a (by decide) (by decide) h5 hps.2.2

theorem makeCat_pres (sk : List String) (r : String) (hr : r ∈ sk)
    (files : List String) (scripts s' : NinjaScripts)
    (h : makeCat files (some sk) scripts = .ok s') (hp : NSP r scripts) : NSP r s' := by
  unfold makeCat at h
  by_cases hf : files = []
  · rw [if_pos hf] at h
    simp only [Except.ok.injEq] at h
    rw [← h]
    exact hp
  · rw [if_neg hf] at h
    refine foldlM_pres (NSP r) _ ?_ files _ s' h
      ⟨noEdgeFor_rulesApp r _ makeLintRules hp.1 (by decide), hp.2.1, hp.2.2⟩
    intro s a s2 hs hps
    rcases exc_bind_eq_ok.mp hs with ⟨l1, h1, hs⟩
    rcases exc_bind_eq_ok.mp hs with ⟨l2, h2, hs⟩
    rcases exc_bind_eq_ok.mp hs with ⟨f1, h3, hs⟩
    have hs2 : s2 = { s with lint := l2, format := f1 } := by
      have h' : Except.ok (ε := PyErr) { s with lint := l2, format := f1 } = Except.ok s2 := hs
      simpa using h'.symm
    rw [hs2]
    refine ⟨?_, hps.2.1, ?_⟩
    · exact lint_pres sk r hr _ _ "ttlint" a (by decide) (by decide) h2
        (lint_pres sk r hr _ _ "make-n" a (by decide) (by decide) h1 hps.1)
    · exact lint_pres sk r hr _ _ "ttlint-fix" a (by decide) (by decide) h3 hps.2.2

theorem nixCat_pres (sk : List String) (r : String) (hr : r ∈ sk)
    (files : List String) (scripts s' : NinjaScripts)
    (h : nixCat files (some sk) scripts = .ok s') (hp : NSP r scripts) : NSP r s' := by
  unfold nixCat at h
  by_cases hf : files = []
  · rw [if_pos hf] at h
    simp only [Except.ok.injEq] at h
    rw [← h]
    exact hp
  · rw [if_neg hf] at h
    refine foldlM_pres (NSP r) _ ?_ files _ s' h hp
    intro s a s2 hs hps
    rcases exc_bind_eq_ok.mp hs with ⟨l1, h1, hs⟩
    rcases exc_bind_eq_ok.mp hs with ⟨f1, h2, hs⟩
    have hs2 : s2 = { s with lint := l1, format := f1 } := by
      have h' : Except.ok (ε := PyErr) { s with lint := l1, format := f1 } = Except.ok s2 := hs
      simpa using h'.symm
    rw [hs2]
    refine ⟨?_, hps.2.1, ?_⟩
    · exact lint_pres sk r hr _ _ "ttlint" a (by decide) (by decide) h1 hps.1
    · exact lint_pres sk r hr _ _ "ttlint-fix" a (by decide) (by decide) h2 hps.2.2

theorem pyCat_pres (sk : List String) (r : String) (hr : r ∈ sk)
    (files : List (String × String)) (scripts s' : NinjaScripts)
    (h : pyCat files (some sk) scripts = .ok s') (hp : NSP r scripts) : NSP r s' := by
  unfold pyCat at h
  by_cases hf : files = []
  · rw [if_pos hf] at h
    simp only [Except.ok.injEq] at h
    rw [← h]
    exact hp
  · rw [if_neg hf] at h
    unfold pyBody at h
    refine foldlM_pres (NSP r) _ ?_ files _ s' h
      ⟨noEdgeFor_rulesApp r _ pyLintRules hp.1 (by decide),
       noEdgeFor_rulesApp r _ pyFixRules hp.2.1 (by decide),
       noEdgeFor_rulesApp r _ pyFormatRules hp.2.2 (by decide)⟩
    intro s a s2 hs hps
    by_cases hq : pyStartswith a.2 "# noqa" = true
    · rw [if_pos hq] at hs
      have h' : Except.ok (ε := PyErr) s = Except.ok s2 := hs
      have : s = s2 := by simpa using h'
      rw [← this]
      exact hps
    · rw [if_neg hq] at hs
      rcases exc_bind_eq_ok.mp hs with ⟨l1, h1, hs⟩
      rcases exc_bind_eq_ok.mp hs with ⟨l2, h2, hs⟩
      rcases exc_bind_eq_ok.mp hs with ⟨l3, h3, hs⟩
      rcases exc_bind_eq_ok.mp hs with ⟨l4, h4, hs⟩
      rcases exc_bind_eq_ok.mp hs with ⟨f1, h5, hs⟩
      rcases exc_bind_eq_ok.mp hs with ⟨l5, h6, hs⟩
      rcases exc_bind_eq_ok.mp hs with ⟨m1, h7, hs⟩
      rcases exc_bind_eq_ok.mp hs with ⟨m2, h8, hs⟩
      have hs2 : s2 = { lint := l5, fix := f1, format := m2 } := by
        have h' : Except.ok (ε := PyErr) ({ lint := l5, fix := f1, format := m2 } : NinjaScripts)
            = Except.ok s2 := hs
        simpa using h'.symm
      rw [hs2]
      refine ⟨?_, ?_, ?_⟩
      · exact lint_pres sk r hr _ _ "ttlint" a.1 (by decide) (by decide) h6
          (lint_pres sk r hr _ _ "py" a.1 (by decide) (by decide) h4
            (lint_pres sk r hr _ _ "ruff-fmt-check" a.1 (by decide) (by decide) h3
              (lint_pres sk r hr _ _ "ruff-check" a.1 (by decide) (by decide) h2
                (lint_pres sk r hr _ _ "ty" a.1 (by decide) (by decide) h1 hps.1))))
      · exact lint_pres sk r hr _ _ "ruff-check-fix" a.1 (by decide) (by decide) h5 hps.2.1
      · exact lint_pres sk r hr _ _ "ttlint-fix" a.1 (by decide) (by decide) h8
          (lint_pres sk r hr _ _ "ruff-fmt" a.1 (by decide) (by decide) h7 hps.2.2)

theorem rsCat_pres (sk : List String) (r : String) (hr : r ∈ sk)
    (cargo rs : List String) (root : String) (scripts s' : NinjaScripts)
    (h : rsCat cargo rs root (some sk) scripts = .ok s') (hp : NSP r scripts) : NSP r s' := by
  unfold rsCat at h
  by_cases hf : rs = []
  · rw [if_pos hf] at h
    simp only [Except.ok.injEq] at h
    rw [← h]
    exact hp
  · rw [if_neg hf] at h
    rcases exc_bind_eq_ok.mp h with ⟨l1, h1, h⟩
    rcases exc_bind_eq_ok.mp h with ⟨l2, h2, h⟩
    rcases exc_bind_eq_ok.mp h with ⟨f1, h3, h⟩
    rcases exc_bind_eq_ok.mp h with ⟨x1, h4, h⟩
    have hL : noEdgeFor r l2 :=
      build_skip_pres sk r hr _ _ _ "rustfmt-check" _ (by decide) (by decide) h2
        (build_skip_pres sk r hr _ _ _ "clippy" _ (by decide) (by decide) h1
          (noEdgeFor_rulesApp r _ _ hp.1 (rsLintRules_safe _ _)))
    have hF : noEdgeFor r f1 :=
      build_skip_pres sk r hr _ _ _ "rustfmt" _ (by decide) (by decide) h3
        (noEdgeFor_rulesApp r _ _ hp.2.2 (rsFormatRules_safe _ _))
    have hX : noEdgeFor r x1 :=
      build_skip_pres sk r hr _ _ _ "clippy-fix" _ (by decide) (by decide) h4
        (noEdgeFor_rulesApp r _ _ hp.2.1 (rsFixRules_safe _ _))
    refine foldlM_pres (NSP r) _ ?_ rs _ s' h ⟨hL, hX, hF⟩
    intro s a s2 hs hps
    rcases exc_bind_eq_ok.mp hs with ⟨l3, h5, hs⟩
    rcases exc_bind_eq_ok.mp hs with ⟨f2, h6, hs⟩
    have hs2 : s2 = { s with lint := l3, format := f2 } := by
      have h' : Except.ok (ε := PyErr) { s with lint := l3, format := f2 } = Except.ok s2 := hs
      simpa using h'.symm
    rw [hs2]
    refine ⟨?_, hps.2.1, ?_⟩
    · exact lint_pres sk r hr _ _ "ttlint" a (by decide) (by decide) h5 hps.1
    · exact lint_pres sk r hr _ _ "ttlint-fix" a (by decide) (by decide) h6 hps.2.2

theorem shCat_pres (sk : List String) (r : String) (hr : r ∈ sk)
    (files : List String) (scripts s' : NinjaScripts)
    (h : shCat files (some sk) scripts = .ok s') (hp : NSP r scripts) : NSP r s' := by
  unfold shCat at h
  by_cases hf : files = []
  · rw [if_pos hf] at h
    simp only [Except.ok.injEq] at h
    rw [← h]
    exact hp
  · rw [if_neg hf] at h
    refine foldlM_pres (NSP r) _ ?_ files _ s' h
      ⟨noEdgeFor_rulesApp r _ shLintRules hp.1 (by decide), hp.2.1, hp.2.2⟩
    intro s a s2 hs hps
    rcases exc_bind_eq_ok.mp hs with ⟨l1, h1, hs⟩
    rcases exc_bind_eq_ok.mp hs with ⟨l2, h2, hs⟩
    rcases exc_bind_eq_ok.mp hs with ⟨f1, h3, hs⟩
    have hs2 : s2 = { s with lint := l2, format := f1 } := by
      have h' : Except.ok (ε := PyErr) { s with lint := l2, format := f1 } = Except.ok s2 := hs
      simpa using h'.symm
    rw [hs2]
    refine ⟨?_, hps.2.1, ?_⟩
    · exact lint_pres sk r hr _ _ "ttlint" a (by decide) (by decide) h2
        (lint_pres sk r hr _ _ "sc" a (by decide) (by decide) h1 hps.1)
    · exact lint_pres sk r hr _ _ "ttlint-fix" a (by decide) (by decide) h3 hps.2.2

theorem tomlCat_pres (sk : List String) (r : String) (hr : r ∈ sk)
    (files : List String) (scripts s' : NinjaScripts)
    (h : tomlCat files (some sk) scripts = .ok s') (hp : NSP r scripts) : NSP r s' := by
  unfold tomlCat at h
  by_cases hf : files = []
  · rw [if_pos hf] at h
    simp only [Except.ok.injEq] at h
    rw [← h]
    exact hp
  · rw [if_neg hf] at h
    refine foldlM_pres (NSP r) _ ?_ files _ s' h
      ⟨noEdgeFor_rulesApp r _ tomlLintRules hp.1 (by decide), hp.2.1,
       noEdgeFor_rulesApp r _ tomlFormatRules hp.2.2 (by decide)⟩
    intro s a s2 hs hps
    rcases exc_bind_eq_ok.mp hs with ⟨l1, h1, hs⟩
    rcases exc_bind_eq_ok.mp hs with ⟨l2, h2, hs⟩
    rcases exc_bind_eq_ok.mp hs with ⟨f1, h3, hs⟩
    rcases exc_bind_eq_ok.mp hs with ⟨f2, h4, hs⟩
    have hs2 : s2 = { s with lint := l2, format := f2 } := by
      have h' : Except.ok (ε := PyErr) { s with lint := l2, format := f2 } = Except.ok s2 := hs
      simpa using h'.symm
    rw [hs2]
    refine ⟨?_, hps.2.1, ?_⟩
    · exact lint_pres sk r hr _ _ "ttlint" a (by decide) (by decide) h2
        (lint_pres sk r hr _ _ "taplo-format-check" a (by decide) (by decide) h1 hps.1)
    · exact lint_pres sk r hr _ _ "ttlint-fix" a (by decide) (by decide) h4
        (lint_pres sk r hr _ _ "taplo-format" a (by decide) (by decide) h3 hps.2.2)

theorem xrefCat_pres (sk : List String) (r : String) (hr : r ∈ sk)
    (files : List String) (scripts s' : NinjaScripts)
    (h : xrefCat files (some sk) scripts = .ok s') (hp : NSP r scripts) : NSP r s' := by
  unfold xrefCat at h
  by_cases hf : files = []
  · rw [if_pos hf] at h
    simp only [Except.ok.injEq] at h
    rw [← h]
    exact hp
  · rw [if_neg hf] at h
    rcases exc_bind_eq_ok.mp h with ⟨l1, h1, h⟩
    have hs2 : s' = { scripts with lint := l1 } := by
      have h' : Except.ok (ε := PyErr) { scripts with lint := l1 } = Except.ok s' := h
      simpa using h'.symm
    rw [hs2]
    refine ⟨?_, hp.2.1, hp.2.2⟩
    exact build_skip_pres sk r hr _ _ _ "xref" _ (by decide) (by decide) h1
      (noEdgeFor_rulesApp r _ xrefLintRules hp.1 (by decide))

/-- Through the whole compilation pipeline, a skipped rule is referenced by no
edge of any of the three graphs. -/
theorem compile_pres (st : RepoState) (sk : List String) (r : String) (hr : r ∈ sk)
    (scripts : NinjaScripts) (h : compile st (some sk) = .ok scripts) :
    NSP r scripts := by
  unfold compile at h
  rcases exc_bind_eq_ok.mp h with ⟨s1, h1, h⟩
  rcases exc_bind_eq_ok.mp h with ⟨s2, h2, h⟩
  rcases exc_bind_eq_ok.mp h with ⟨s3, h3, h⟩
  rcases exc_bind_eq_ok.mp h with ⟨s4, h4, h⟩
  rcases exc_bind_eq_ok.mp h with ⟨s5, h5, h⟩
  rcases exc_bind_eq_ok.mp h with ⟨s6, h6, h⟩
  rcases exc_bind_eq_ok.mp h with ⟨s7, h7, h⟩
  rcases exc_bind_eq_ok.mp h with ⟨s8, h8, h⟩
  rcases exc_bind_eq_ok.mp h with ⟨s9, h9, h⟩
  rcases exc_bind_eq_ok.mp h with ⟨s10, h10, h⟩
  rcases exc_bind_eq_ok.mp h with ⟨s11, h11, h⟩
  rcases exc_bind_eq_ok.mp h with ⟨u1, _, h⟩
  rcases exc_bind_eq_ok.mp h with ⟨u2, _, h⟩
  rcases exc_bind_eq_ok.mp h with ⟨u3, _, h⟩
  have hfin : scripts = s11 := by
    have h' : Except.ok (ε := PyErr) s11 = Except.ok scripts := h
    simpa using h'.symm
  rw [hfin]
  have p0 : NSP r { lint := lintPreamble, fix := fixPreamble, format := formatPreamble } :=
    ⟨noEdgeFor_of_safe _ (by decide) r, noEdgeFor_of_safe _ (by decide) r,
     noEdgeFor_of_safe _ (by decide) r⟩
  exact xrefCat_pres sk r hr _ _ _ h11
    (tomlCat_pres sk r hr _ _ _ h10
      (shCat_pres sk r hr _ _ _ h9
        (rsCat_pres sk r hr _ _ _ _ _ h8
          (pyCat_pres sk r hr _ _ _ h7
            (nixCat_pres sk r hr _ _ _ h6
              (makeCat_pres sk r hr _ _ _ h5
                (mdCat_pres sk r hr _ _ _ h4
                  (jsonCat_pres sk r hr _ _ _ h3
                    (ghaCat_pres sk r hr _ _ _ h2
                      (bashCat_pres sk r hr _ _ _ h1 p0))))))))))

/-- `ruleNamesE` can only fail with `indexError`. -/
theorem mapTokens_tokOf_error :
    ∀ (l : List String) (e : PyErr), mapTokens tokOf l = .error e → e = .indexError := by
  intro l
  induction l with
  | nil =>
    intro e h
    exact absurd h (by simp [mapTokens])
  | cons a l ih =>
    intro e h
    rw [mapTokens] at h
    cases ha : tokOf a with
    | error e1 =>
      rw [ha] at h
      simp only [exc_bind_error] at h
      have he : e1 = e := by simpa using h
      rw [← he]
      unfold tokOf at ha
      cases hto : (wsSplit a.data)[1]? with
      | some t => rw [hto] at ha; exact absurd ha (by simp)
      | none => rw [hto] at ha; simpa using ha.symm
    | ok t =>
      rw [ha] at h
      simp only [exc_bind_ok] at h
      cases hl : mapTokens tokOf l with
      | error e2 =>
        rw [hl] at h
        simp only [exc_bind_error] at h
        have he : e2 = e := by simpa using h
        rw [← he]
        exact ih e2 hl
      | ok ts =>
        rw [hl] at h
        simp only [exc_bind_ok] at h
        have h'' : Except.ok (ε := PyErr) (t :: ts) = Except.error e := h
        exact absurd h'' (by simp)

/-- The validator never fails blaming a rule in the skip set. -/
theorem okRun_error_not_skipped (ci : Bool) (g : Script) (sk : List String)
    (e : String) (h : okRun ci g (some sk) = .error (.unrefRule e)) :
    decide (e ∈ sk) = false := by
  cases ci with
  | true => exact absurd h (by simp [okRun])
  | false =>
    have h' : ruleNamesE g >>= okLoop g (some sk) = .error (.unrefRule e) := h
    cases hn : ruleNamesE g with
    | error e1 =>
      rw [hn] at h'
      simp only [exc_bind_error] at h'
      have he : e1 = PyErr.unrefRule e := by simpa using h'
      have := mapTokens_tokOf_error _ e1 hn
      rw [he] at this
      exact absurd this (by simp)
    | ok names =>
      rw [hn] at h'
      simp only [exc_bind_ok] at h'
      rcases okLoop_error_unref g (some sk) names e h' with ⟨x, _, _, hxs, _⟩
      exact hxs

/-- C5: for every rule name in the skip set, no `build` edge of any of the
three compiled graphs has that rule in its rule field, and the validator — on
any graph, under any CI setting — never aborts naming a skipped rule as
unreferenced. -/
theorem c5_skip_property (st : RepoState) (sk : List String) (r : String)
    (scripts : NinjaScripts) (hr : r ∈ sk)
    (hc : compile st (some sk) = .ok scripts) :
    (noEdgeFor r scripts.lint ∧ noEdgeFor r scripts.fix ∧ noEdgeFor r scripts.format) ∧
    (∀ ci g e, okRun ci g (some sk) = .error (.unrefRule e) → e ≠ r) := by
  constructor
  · exact compile_pres st sk r hr scripts hc
  · intro ci g e he hEq
    have := okRun_error_not_skipped ci g sk e he
    rw [hEq] at this
    exact absurd hr (of_decide_eq_false this)

/-- Repository state for the C5 witness: one bash file. -/
def c5Repo : RepoState :=
  { bashFiles := ["a.bash"], ghaFiles := [], jsonFiles := [], mdFiles := [],
    makeFiles := [], nixFiles := [], pyFiles := [], cargoFiles := [],
    rsFiles := [], shFiles := [], tomlFiles := [], xrefFiles := [],
    root := "/repo", ci := false }

/-- The graphs `c5Repo` compiles to when `ttlint` is skipped. -/
def c5Scripts : NinjaScripts :=
  { lint := lintPreamble ++ bashLintRules ++
      ["build $builddir/a.bash.bash-n: bash-n a.bash",
       "build $builddir/a.bash.bash-sc: bash-sc a.bash"],
    fix := fixPreamble,
    format := formatPreamble ++
      ["build $builddir/a.bash.ttlint-fix: ttlint-fix a.bash"] }

/-- C5, witness: skipping `ttlint` over `c5Repo` leaves no `ttlint` edge in
any graph. -/
theorem c5_witness :
    (("ttlint" : String) ∈ ["ttlint"] ∧
      compile c5Repo (some ["ttlint"]) = .ok c5Scripts) ∧
    (noEdgeFor "ttlint" c5Scripts.lint ∧ noEdgeFor "ttlint" c5Scripts.fix ∧
      noEdgeFor "ttlint" c5Scripts.format) :=
  ⟨⟨by decide, by decide⟩,
    (c5_skip_property c5Repo ["ttlint"] "ttlint" c5Scripts (by decide) (by decide)).1⟩

end LintSpec
